import Mathlib

/-!
# Verification of the PCR snapshot pipeline

A shallow embedding of `generate_snapshot.py`: the per-expiry aggregation,
the four signal-enrichment passes, the maturity-bucket aggregation with its
concentration scoring, and the two top-N ranking operations.

Modelling conventions:
* A float that may be NaN is `Option ℚ`; `none` is NaN.  All arithmetic on
  such values propagates `none` exactly as NumPy/pandas propagate NaN, and
  pandas' NaN-skipping column sum is `nanSum`.
* Python's `round` (and NumPy's) round half to even; `roundHalfEven` models
  it exactly on rationals, and `roundTo n` rounds to `n` decimal places.
* The table is a `List` of typed rows; each enrichment pass is a
  `List → List` map, mirroring the column-append idiom of the source.
* Retrieval of an option chain from the data provider is an oracle
  `String → Option Chain`; `none` models a raised retrieval/computation
  exception for that expiry (which the source catches and skips).
* Calendar-date parsing (`pd.to_datetime(..., errors="coerce")`) is
  modelled for ISO `YYYY-MM-DD` strings, the format the data source uses;
  day counts use the standard civil-from-days algorithm.
-/

/-- Round half to even (banker's rounding), as Python's `round` and
NumPy's `np.round` do. -/
def roundHalfEven (q : ℚ) : ℤ :=
  if q - ⌊q⌋ < 1/2 then ⌊q⌋
  else if 1/2 < q - ⌊q⌋ then ⌊q⌋ + 1
  else if ⌊q⌋ % 2 = 0 then ⌊q⌋ else ⌊q⌋ + 1

/-- Round to `n` decimal places, half to even: models `round(x, n)`. -/
def roundTo (n : ℕ) (q : ℚ) : ℚ := (roundHalfEven (q * 10 ^ n) : ℚ) / 10 ^ n

/-- `fillna(0)` on a nullable value. -/
def fillna0 (x : Option ℚ) : ℚ := x.getD 0

/-- pandas column sum with `skipna=True` (the default): NaN entries are
skipped, and an all-NaN (or empty) column sums to `0`. -/
def nanSum (xs : List (Option ℚ)) : ℚ := (xs.filterMap id).sum

/-- One option contract row as retrieved from the provider: `volume` and
`openInterest` are nullable numbers. -/
structure ContractRow where
  volume : Option ℚ
  openInterest : Option ℚ
deriving Repr, DecidableEq

/-- One expiry's option chain: the `calls` and `puts` row sets. -/
structure Chain where
  calls : List ContractRow
  puts : List ContractRow
deriving Repr, DecidableEq

/-- `fillna(0).sum()` of one column over a row set. -/
def colSum (col : ContractRow → Option ℚ) (rows : List ContractRow) : ℚ :=
  (rows.map (fun r => fillna0 (col r))).sum

/-- One row of the (enriched) per-expiry table.  `per_expiry_totals`
produces the base columns; the enrichment passes fill in the derived
columns (which start out as NaN / false, standing for "column absent"). -/
structure EnrichedRow where
  Symbol : String
  Expiry : String
  Put_Volume : ℤ
  Call_Volume : ℤ
  Volume_PCR : Option ℚ
  Put_OI : ℤ
  Call_OI : ℤ
  OI_PCR : Option ℚ
  Total_OI : ℤ
  DTE : Option ℤ := none
  Divergence_Vol_minus_OI : Option ℚ := none
  Impulse_Vol_over_OI : Option ℚ := none
  Quality_OK : Bool := false
  EventScore_OIshare_x_OI_PCR : Option ℚ := none
deriving Repr, DecidableEq

/-- The body of the per-expiry loop of `per_expiry_totals`: sum the call
and put `volume`/`openInterest` columns (nulls as 0), form the two ratios
with zero-denominator → NaN, round ratios to 6 decimals and sums to
integers. -/
def mkExpiryRow (symbol exp : String) (ch : Chain) : EnrichedRow :=
  let c_vol := colSum (·.volume) ch.calls
  let p_vol := colSum (·.volume) ch.puts
  let c_oi := colSum (·.openInterest) ch.calls
  let p_oi := colSum (·.openInterest) ch.puts
  let vol_pcr : Option ℚ := if 0 < c_vol then some (p_vol / c_vol) else none
  let oi_pcr : Option ℚ := if 0 < c_oi then some (p_oi / c_oi) else none
  { Symbol := symbol
    Expiry := exp
    Put_Volume := roundHalfEven p_vol
    Call_Volume := roundHalfEven c_vol
    Volume_PCR := vol_pcr.map (roundTo 6)
    Put_OI := roundHalfEven p_oi
    Call_OI := roundHalfEven c_oi
    OI_PCR := oi_pcr.map (roundTo 6)
    Total_OI := roundHalfEven (p_oi + c_oi) }

/-- Truncation of the expiry list by the optional `max_expiries` cap. -/
def truncExpiries (expiries : List String) (max_expiries : Option ℕ) : List String :=
  match max_expiries with
  | some n => expiries.take n
  | none => expiries

/-- Lexicographic byte-order comparison of strings, the order pandas'
`sort_values` uses on an object column of strings. -/
def strLe (a b : String) : Bool :=
  go a.toList b.toList
where
  go : List Char → List Char → Bool
    | [], _ => true
    | _ :: _, [] => false
    | c :: cs, d :: ds =>
      if c.toNat < d.toNat then true
      else if d.toNat < c.toNat then false
      else go cs ds

/-- `df.sort_values("Expiry")`: stable sort of the rows by expiry label. -/
def sortByExpiry (rows : List EnrichedRow) : List EnrichedRow :=
  List.insertionSort (fun a b => strLe a.Expiry b.Expiry = true) rows

/-- The aggregated table together with the side metadata the source
attaches as `df.attrs`. -/
structure AggResult where
  rows : List EnrichedRow
  expiries_used : ℕ
  expiries_requested : ℕ
deriving Repr, DecidableEq

/-- `per_expiry_totals`: per-expiry aggregation over the provider's expiry
list.  `fetch` is the retrieval oracle; `none` models a raised exception
for that expiry, which is caught, logged and skipped.  Raises (returns
`Except.error`) when the provider lists no expiries, or when no expiry
yields a row. -/
def per_expiry_totals (symbol : String) (options : List String)
    (fetch : String → Option Chain) (max_expiries : Option ℕ) :
    Except String AggResult :=
  if options.isEmpty then
    .error ("No option expirations for " ++ symbol)
  else
    let expiries := truncExpiries options max_expiries
    let rows := expiries.filterMap (fun e => (fetch e).map (fun ch => mkExpiryRow symbol e ch))
    if rows.isEmpty then
      .error ("No chain data aggregated for " ++ symbol)
    else
      .ok { rows := sortByExpiry rows
            expiries_used := rows.length
            expiries_requested := expiries.length }

/-- A calendar date. -/
structure Date where
  year : ℤ
  month : ℤ
  day : ℤ
deriving Repr, DecidableEq

def isLeap (y : ℤ) : Bool := (y % 4 == 0 && y % 100 != 0) || y % 400 == 0

def daysInMonth (y m : ℤ) : ℤ :=
  if m = 2 then (if isLeap y then 29 else 28)
  else if m = 4 ∨ m = 6 ∨ m = 9 ∨ m = 11 then 30
  else 31

def Date.valid (d : Date) : Bool :=
  1 ≤ d.month && d.month ≤ 12 && 1 ≤ d.day && d.day ≤ daysInMonth d.year d.month

/-- Serial day number of a civil date (days since 1970-01-01), the
standard civil-calendar algorithm; differences of this function are
exactly `(a - b).days` on Python `date` objects. -/
def Date.toDays (d : Date) : ℤ :=
  let y := if d.month ≤ 2 then d.year - 1 else d.year
  let era := (if 0 ≤ y then y else y - 399) / 400
  let yoe := y - era * 400
  let mp := (d.month + 9) % 12
  let doy := (153 * mp + 2) / 5 + d.day - 1
  let doe := yoe * 365 + yoe / 4 - yoe / 100 + doy
  era * 146097 + doe - 719468

def digitsToInt (cs : List Char) : ℤ :=
  (cs.foldl (fun a c => a * 10 + (c.toNat - 48)) 0 : ℕ)

/-- `pd.to_datetime(expiry, errors="coerce")` on the ISO `YYYY-MM-DD`
strings the data source produces: `none` (NaT) on anything unparseable,
including calendar-invalid dates. -/
def parseDate (s : String) : Option Date :=
  match s.toList with
  | [y1, y2, y3, y4, '-', m1, m2, '-', d1, d2] =>
    if ([y1, y2, y3, y4, m1, m2, d1, d2].all Char.isDigit) then
      let d : Date :=
        { year := digitsToInt [y1, y2, y3, y4]
          month := digitsToInt [m1, m2]
          day := digitsToInt [d1, d2] }
      if d.valid then some d else none
    else none
  | _ => none

/-- `add_dte`: parse each row's expiry; `DTE` is the signed day count from
the as-of date to the expiry date, NaN when the expiry is unparseable. -/
def add_dte (df : List EnrichedRow) (asof : Date) : List EnrichedRow :=
  df.map fun r =>
    { r with DTE := (parseDate r.Expiry).map (fun e => e.toDays - asof.toDays) }

/-- `add_flow_vs_positioning`: divergence (`Volume_PCR - OI_PCR`, NaN if
either is NaN) and impulse (`Volume_PCR / OI_PCR` when `OI_PCR` is finite
and strictly positive and `Volume_PCR` is finite, else NaN), both rounded
to 6 decimals. -/
def add_flow_vs_positioning (df : List EnrichedRow) : List EnrichedRow :=
  df.map fun r =>
    let divg : Option ℚ :=
      match r.Volume_PCR, r.OI_PCR with
      | some v, some oi => some (roundTo 6 (v - oi))
      | _, _ => none
    let imp : Option ℚ :=
      match r.Volume_PCR, r.OI_PCR with
      | some v, some oi => if 0 < oi then some (roundTo 6 (v / oi)) else none
      | _, _ => none
    { r with Divergence_Vol_minus_OI := divg, Impulse_Vol_over_OI := imp }

/-- Default quality thresholds of the source's CONFIG block. -/
def MIN_CALL_OI : ℤ := 1000
def MIN_CALL_VOL : ℤ := 500
def MIN_TOTAL_OI : ℤ := 10000

/-- `add_quality_flags`: boolean liquidity gate per thresholds. -/
def add_quality_flags (df : List EnrichedRow)
    (min_call_oi min_call_vol min_total_oi : ℤ) : List EnrichedRow :=
  df.map fun r =>
    { r with Quality_OK :=
        decide (min_call_oi ≤ r.Call_OI ∧ min_call_vol ≤ r.Call_Volume ∧
                min_total_oi ≤ r.Total_OI) }

/-- The table-wide `Total_OI` sum used as the event-score denominator:
computed over the whole (unfiltered) table. -/
def eventDenom (df : List EnrichedRow) : ℚ :=
  (df.map (fun r => (r.Total_OI : ℚ))).sum

/-- `add_event_score`: if the table-wide `Total_OI` sum is `≤ 0` every
row's score is NaN; otherwise `round(share × OI_PCR, 8)` with NaN
propagating from `OI_PCR`. -/
def add_event_score (df : List EnrichedRow) : List EnrichedRow :=
  let denom := eventDenom df
  if denom ≤ 0 then
    df.map fun r => { r with EventScore_OIshare_x_OI_PCR := none }
  else
    df.map fun r =>
      { r with EventScore_OIshare_x_OI_PCR :=
          r.OI_PCR.map (fun p => roundTo 8 ((r.Total_OI / denom) * p)) }

/-- `enrich_per_expiry`: aggregation followed by the four enrichment
passes, with the side metadata carried forward. -/
def enrich_per_expiry (symbol : String) (options : List String)
    (fetch : String → Option Chain) (max_expiries : Option ℕ) (asof : Date) :
    Except String AggResult :=
  (per_expiry_totals symbol options fetch max_expiries).map fun agg =>
    let enriched :=
      add_event_score
        (add_quality_flags (add_flow_vs_positioning (add_dte agg.rows asof))
          MIN_CALL_OI MIN_CALL_VOL MIN_TOTAL_OI)
    { agg with rows := enriched }

/-- One row of the bucket term-structure table. -/
structure BucketRow where
  Bucket : String
  DTE_Min : ℤ
  DTE_Max : ℤ
  Sum_Put_OI : ℤ
  Sum_Call_OI : ℤ
  Bucket_OI_PCR : Option ℚ
  Sum_Put_Volume : ℤ
  Sum_Call_Volume : ℤ
  Bucket_Volume_PCR : Option ℚ
  Bucket_TotalOI : ℤ
  Bucket_TotalOI_Share : Option ℚ
  Bucket_Concentration_Score : Option ℚ := none
  Bucket_Concentration_Share : Option ℚ := none
deriving Repr, DecidableEq

/-- The fixed, ordered maturity bands of `bucket_term_structure`. -/
def bucketBands : List (String × ℤ × ℤ) :=
  [("Short_1_20", 1, 20), ("Mid_21_60", 21, 60), ("Long_61_120", 61, 120)]

/-- The optional `Quality_OK == True` pre-filter. -/
def qualityFilter (df : List EnrichedRow) (require_quality_ok : Bool) : List EnrichedRow :=
  if require_quality_ok then df.filter (fun r => r.Quality_OK) else df

/-- Band membership: `(DTE >= lo) & (DTE <= hi)`; NaN compares false. -/
def inBand (lo hi : ℤ) (r : EnrichedRow) : Bool :=
  match r.DTE with
  | some d => decide (lo ≤ d ∧ d ≤ hi)
  | none => false

/-- The single table-wide `Total_OI` sum `bucket_term_structure` computes
over the (possibly quality-filtered) table, before banding, and then uses
as every bucket's share denominator. -/
def bucketDenom (df : List EnrichedRow) (require_quality_ok : Bool) : ℚ :=
  ((qualityFilter df require_quality_ok).map (fun r => (r.Total_OI : ℚ))).sum

/-- One band's row of the bucket table, before concentration scoring:
re-sum the five quantity columns over member rows, recompute the two
ratios with zero-denominator → NaN, and take the share of `denom`. -/
def mkBucketRow (t : List EnrichedRow) (denom : ℚ) :
    String × ℤ × ℤ → BucketRow := fun (name, lo, hi) =>
  let w := t.filter (inBand lo hi)
  let put_oi : ℚ := (w.map (fun r => (r.Put_OI : ℚ))).sum
  let call_oi : ℚ := (w.map (fun r => (r.Call_OI : ℚ))).sum
  let put_vol : ℚ := (w.map (fun r => (r.Put_Volume : ℚ))).sum
  let call_vol : ℚ := (w.map (fun r => (r.Call_Volume : ℚ))).sum
  let total_oi : ℚ := (w.map (fun r => (r.Total_OI : ℚ))).sum
  let oi_pcr : Option ℚ := if 0 < call_oi then some (put_oi / call_oi) else none
  let vol_pcr : Option ℚ := if 0 < call_vol then some (put_vol / call_vol) else none
  let oi_share : Option ℚ := if 0 < denom then some (total_oi / denom) else none
  { Bucket := name
    DTE_Min := lo
    DTE_Max := hi
    Sum_Put_OI := roundHalfEven put_oi
    Sum_Call_OI := roundHalfEven call_oi
    Bucket_OI_PCR := oi_pcr.map (roundTo 6)
    Sum_Put_Volume := roundHalfEven put_vol
    Sum_Call_Volume := roundHalfEven call_vol
    Bucket_Volume_PCR := vol_pcr.map (roundTo 6)
    Bucket_TotalOI := roundHalfEven total_oi
    Bucket_TotalOI_Share := oi_share.map (roundTo 6) }

/-- The `Bucket_Concentration_Score` column: bucket OI share × bucket
OI PCR (both as stored, i.e. already rounded); NaN propagates. -/
def scoreOf (b : BucketRow) : Option ℚ :=
  match b.Bucket_TotalOI_Share, b.Bucket_OI_PCR with
  | some s, some p => some (s * p)
  | _, _ => none

/-- The bucket table before concentration scoring. -/
def bucketBaseRows (df : List EnrichedRow) (require_quality_ok : Bool) : List BucketRow :=
  let t := qualityFilter df require_quality_ok
  bucketBands.map (mkBucketRow t (bucketDenom df require_quality_ok))

/-- The normalization denominator of the concentration shares: the
NaN-skipping sum of the (unrounded) concentration scores. -/
def concDenom (outRows : List BucketRow) : ℚ := nanSum (outRows.map scoreOf)

/-- `bucket_term_structure`: band aggregation followed by concentration
scoring.  Shares are `score / Σscores` when that sum is positive, and NaN
for every bucket otherwise; scores are then rounded to 8 decimals and
shares to 6. -/
def bucket_term_structure (df : List EnrichedRow) (require_quality_ok : Bool := true) :
    List BucketRow :=
  let out := bucketBaseRows df require_quality_ok
  let denom := concDenom out
  out.map fun b =>
    let score := scoreOf b
    let share : Option ℚ := if 0 < denom then score.map (fun s => s / denom) else none
    { b with
        Bucket_Concentration_Score := score.map (roundTo 8)
        Bucket_Concentration_Share := share.map (roundTo 6) }

/-- The fixed column subset `top_expiries_by_oi_pcr` projects onto. -/
structure TopOIRow where
  Symbol : String
  Expiry : String
  OI_PCR : Option ℚ
  Volume_PCR : Option ℚ
  Put_OI : ℤ
  Call_OI : ℤ
  Total_OI : ℤ
  Put_Volume : ℤ
  Call_Volume : ℤ
deriving Repr, DecidableEq

def projTopOI (r : EnrichedRow) : TopOIRow :=
  { Symbol := r.Symbol
    Expiry := r.Expiry
    OI_PCR := r.OI_PCR
    Volume_PCR := r.Volume_PCR
    Put_OI := r.Put_OI
    Call_OI := r.Call_OI
    Total_OI := r.Total_OI
    Put_Volume := r.Put_Volume
    Call_Volume := r.Call_Volume }

/-- The sort key used by the rankers: the metric value of a row, with the
convention that rows have already been filtered to non-NaN metric. -/
def sortKeyRel (descending : Bool) (key : EnrichedRow → ℚ) (a b : EnrichedRow) : Prop :=
  if descending then key b ≤ key a else key a ≤ key b

instance (descending : Bool) (key : EnrichedRow → ℚ) :
    DecidableRel (sortKeyRel descending key) := fun a b => by
  unfold sortKeyRel; infer_instance

/-- `df.sort_values(metric, ascending=not descending)`. -/
def sortRows (descending : Bool) (key : EnrichedRow → ℚ) (l : List EnrichedRow) :
    List EnrichedRow :=
  List.insertionSort (sortKeyRel descending key) l

/-- `top_expiries_by_oi_pcr`: drop NaN `OI_PCR` rows, sort descending by
`OI_PCR`, keep the first `top_n`, project the fixed column subset (which
does not include `Quality_OK`; no quality gate is applied). -/
def top_expiries_by_oi_pcr (df : List EnrichedRow) (top_n : ℕ := 5) : List TopOIRow :=
  let out := df.filter (fun r => r.OI_PCR.isSome)
  let out := sortRows true (fun r => fillna0 r.OI_PCR) out
  (out.take top_n).map projTopOI

/-- `_to_num` applied to a named column of the enriched table: the
numeric view of that column, `none` when the name is unknown.  String
columns coerce to NaN (`pd.to_numeric(..., errors="coerce")`), the
boolean quality column to 0/1. -/
def colAsNum (metric : String) : Option (EnrichedRow → Option ℚ) :=
  if metric = "Symbol" then some (fun _ => none)
  else if metric = "Expiry" then some (fun _ => none)
  else if metric = "Put_Volume" then some (fun r => some (r.Put_Volume : ℚ))
  else if metric = "Call_Volume" then some (fun r => some (r.Call_Volume : ℚ))
  else if metric = "Volume_PCR" then some (fun r => r.Volume_PCR)
  else if metric = "Put_OI" then some (fun r => some (r.Put_OI : ℚ))
  else if metric = "Call_OI" then some (fun r => some (r.Call_OI : ℚ))
  else if metric = "OI_PCR" then some (fun r => r.OI_PCR)
  else if metric = "Total_OI" then some (fun r => some (r.Total_OI : ℚ))
  else if metric = "DTE" then some (fun r => r.DTE.map (fun d => (d : ℚ)))
  else if metric = "Divergence_Vol_minus_OI" then some (fun r => r.Divergence_Vol_minus_OI)
  else if metric = "Impulse_Vol_over_OI" then some (fun r => r.Impulse_Vol_over_OI)
  else if metric = "EventScore_OIshare_x_OI_PCR" then some (fun r => r.EventScore_OIshare_x_OI_PCR)
  else if metric = "Quality_OK" then some (fun r => some (if r.Quality_OK then 1 else 0))
  else none

/-- `top_by_metric`: fails with `UnknownMetric` when the named column does
not exist; otherwise optionally quality-filters (default on), drops rows
with NaN metric, sorts in the requested direction, keeps the first
`top_n`.  The projected column list of the source names every column of
the enriched table, so the projection is the identity here. -/
def top_by_metric (df : List EnrichedRow) (metric : String) (top_n : ℕ := 5)
    (descending : Bool := true) (require_quality_ok : Bool := true) :
    Except String (List EnrichedRow) :=
  match colAsNum metric with
  | none => .error ("Metric '" ++ metric ++ "' not found")
  | some col =>
    let t := qualityFilter df require_quality_ok
    let t := t.filter (fun r => (col r).isSome)
    let t := sortRows descending (fun r => fillna0 (col r)) t
    .ok (t.take top_n)

/-! ## Test fixtures -/

/-- Expiry A of the end-to-end example: call_vol=600, put_vol=900,
call_oi=2000, put_oi=1000. -/
def chainA : Chain :=
  { calls := [{ volume := some 600, openInterest := some 2000 }]
    puts := [{ volume := some 900, openInterest := some 1000 }] }

/-- Expiry B of the end-to-end example: call_vol=0, put_vol=50,
call_oi=500, put_oi=2000. -/
def chainB : Chain :=
  { calls := [{ volume := some 0, openInterest := some 500 }]
    puts := [{ volume := some 50, openInterest := some 2000 }] }

def fetchEx : String → Option Chain := fun e =>
  if e = "A" then some chainA else if e = "B" then some chainB else none

/-- The full pipeline run on the two-expiry example. -/
def enrichExample : Except String AggResult :=
  enrich_per_expiry "SPY" ["A", "B"] fetchEx none ⟨2025, 1, 1⟩

/-- The enriched rows of the example run. -/
def enrichExampleRows : List EnrichedRow :=
  match enrichExample with
  | .ok agg => agg.rows
  | .error _ => []

/-- An already-enriched row literal, for fixtures that exercise a single
downstream operation. -/
def mkRow (expiry : String) (oi_pcr : Option ℚ) (dte : Option ℤ)
    (put_oi call_oi total_oi : ℤ) (q : Bool) : EnrichedRow :=
  { Symbol := "SPY"
    Expiry := expiry
    Put_Volume := 0
    Call_Volume := 0
    Volume_PCR := none
    Put_OI := put_oi
    Call_OI := call_oi
    OI_PCR := oi_pcr
    Total_OI := total_oi
    DTE := dte
    Quality_OK := q }

/-- Two rows with the same `OI_PCR`: a tie for the rankers. -/
def tieDF : List EnrichedRow :=
  [mkRow "2025-01-17" (some 1) (some 5) 100 100 200 true,
   mkRow "2025-02-21" (some 1) (some 40) 100 100 200 true]

/-- A one-row quality-passing table whose single expiry falls in the
short band; the mid and long bands are empty. -/
def oneShortDF : List EnrichedRow :=
  [mkRow "2025-01-17" (some 1) (some 10) 100 100 200 true]

/-- A chain with fractional open-interest values. -/
def fracChain : Chain :=
  { calls := [{ volume := none, openInterest := some (3/5) }]
    puts := [{ volume := none, openInterest := some (3/5) }] }

/-- A base row with both ratios present, for exercising the
divergence/impulse pass. -/
def flowRow : EnrichedRow :=
  { Symbol := "SPY"
    Expiry := "X"
    Put_Volume := 900
    Call_Volume := 600
    Volume_PCR := some (3/2)
    Put_OI := 1000
    Call_OI := 2000
    OI_PCR := some (1/2)
    Total_OI := 3000 }

/-- The row the divergence/impulse pass produces from `flowRow`. -/
def flowOut : EnrichedRow :=
  { flowRow with
      Divergence_Vol_minus_OI := some 1
      Impulse_Vol_over_OI := some 3 }

/-- One parseable past expiry and one unparseable expiry label. -/
def dteDF : List EnrichedRow :=
  [mkRow "2025-01-10" none none 0 0 0 false,
   mkRow "not-a-date" none none 0 0 0 false]

/-- The as-of date used with `dteDF`. -/
def asofEx : Date := ⟨2025, 1, 15⟩

/-- A quality-passing row whose DTE (500) lies outside every maturity
band. -/
def farRow : EnrichedRow := mkRow "2030-01-01" (some 1) (some 500) 10 10 20 true

/-- A row failing the quality gate. -/
def lowQRow : EnrichedRow := mkRow "2025-03-21" (some 1) (some 10) 10 10 20 false

/-- Rewrite every row's `Quality_OK` flag: the device used to state that
an operation is insensitive to the quality column. -/
def setQuality (df : List EnrichedRow) (q : EnrichedRow → Bool) : List EnrichedRow :=
  df.map (fun r => { r with Quality_OK := q r })

-- ===================================================================
-- Theorems
-- ===================================================================

/-! ## Rounding lemmas -/

theorem roundHalfEven_intCast (n : ℤ) : roundHalfEven (n : ℚ) = n := by
  unfold roundHalfEven
  rw [Int.floor_intCast]
  norm_num

theorem roundHalfEven_zero : roundHalfEven 0 = 0 := by
  simpa using roundHalfEven_intCast 0

theorem abs_roundHalfEven_sub (q : ℚ) : |(roundHalfEven q : ℚ) - q| ≤ 1/2 := by
  have h0 : (⌊q⌋ : ℚ) ≤ q := Int.floor_le q
  have h1 : q < (⌊q⌋ : ℚ) + 1 := Int.lt_floor_add_one q
  unfold roundHalfEven
  split
  · rw [abs_le]; constructor <;> linarith
  · split
    · push_cast
      rw [abs_le]; constructor <;> linarith
    · split
      · rw [abs_le]; constructor <;> linarith
      · push_cast
        rw [abs_le]; constructor <;> linarith

theorem roundHalfEven_nonneg {q : ℚ} (h : 0 ≤ q) : 0 ≤ roundHalfEven q := by
  have h0 : (0 : ℤ) ≤ ⌊q⌋ := Int.floor_nonneg.mpr h
  unfold roundHalfEven
  split
  · exact h0
  · split
    · omega
    · split
      · exact h0
      · omega

theorem roundHalfEven_nonpos {q : ℚ} (h : q ≤ 0) : roundHalfEven q ≤ 0 := by
  have hf : ⌊q⌋ ≤ 0 := by
    have := Int.floor_mono h
    simpa using this
  unfold roundHalfEven
  split
  · exact hf
  · rename_i h2
    push_neg at h2
    have hneg : ⌊q⌋ < 0 := by
      by_contra hc
      push_neg at hc
      have hc' : (0 : ℚ) ≤ (⌊q⌋ : ℚ) := by exact_mod_cast hc
      linarith
    split
    · omega
    · split
      · omega
      · omega

theorem abs_roundTo_sub (n : ℕ) (q : ℚ) :
    |roundTo n q - q| ≤ 1 / (2 * 10 ^ n) := by
  have hpow : (0 : ℚ) < 10 ^ n := by positivity
  have h := abs_roundHalfEven_sub (q * 10 ^ n)
  unfold roundTo
  have hrw : (roundHalfEven (q * 10 ^ n) : ℚ) / 10 ^ n - q
      = ((roundHalfEven (q * 10 ^ n) : ℚ) - q * 10 ^ n) / 10 ^ n := by
    field_simp
    ring
  rw [hrw, abs_div, abs_of_pos hpow, div_le_div_iff₀ hpow (by positivity)]
  calc |(roundHalfEven (q * 10 ^ n) : ℚ) - q * 10 ^ n| * (2 * 10 ^ n)
      ≤ (1/2) * (2 * 10 ^ n) := by
        apply mul_le_mul_of_nonneg_right h
        positivity
    _ = 1 * 10 ^ n := by ring

theorem roundTo_nonneg {n : ℕ} {q : ℚ} (h : 0 ≤ q) : 0 ≤ roundTo n q := by
  unfold roundTo
  have hpow : (0 : ℚ) < 10 ^ n := by positivity
  have := roundHalfEven_nonneg (q := q * 10 ^ n) (by positivity)
  have : (0 : ℚ) ≤ (roundHalfEven (q * 10 ^ n) : ℚ) := by exact_mod_cast this
  positivity

theorem roundTo_nonpos {n : ℕ} {q : ℚ} (h : q ≤ 0) : roundTo n q ≤ 0 := by
  unfold roundTo
  have hpow : (0 : ℚ) < 10 ^ n := by positivity
  have h1 := roundHalfEven_nonpos (q := q * 10 ^ n)
    (mul_nonpos_of_nonpos_of_nonneg h (le_of_lt hpow))
  have h2 : (roundHalfEven (q * 10 ^ n) : ℚ) ≤ 0 := by exact_mod_cast h1
  exact div_nonpos_of_nonpos_of_nonneg h2 (le_of_lt hpow)

theorem roundTo_zero (n : ℕ) : roundTo n 0 = 0 := by
  unfold roundTo
  rw [zero_mul, roundHalfEven_zero]
  simp

theorem roundTo_intCast (n : ℕ) (m : ℤ) : roundTo n (m : ℚ) = m := by
  unfold roundTo
  have hcast : (m : ℚ) * 10 ^ n = ((m * 10 ^ n : ℤ) : ℚ) := by push_cast; ring
  rw [hcast, roundHalfEven_intCast]
  push_cast
  field_simp

/-! ## Summation lemmas -/

theorem abs_sum_map_sub_le (l : List ℚ) (f : ℚ → ℚ) (c : ℚ)
    (h : ∀ x, |f x - x| ≤ c) :
    |(l.map f).sum - l.sum| ≤ l.length * c := by
  induction l with
  | nil => simp
  | cons a t ih =>
    simp only [List.map_cons, List.sum_cons, List.length_cons]
    have hsplit : (f a + (t.map f).sum) - (a + t.sum)
        = (f a - a) + ((t.map f).sum - t.sum) := by ring
    have habs : |(f a + (t.map f).sum) - (a + t.sum)|
        ≤ |f a - a| + |(t.map f).sum - t.sum| := by
      rw [hsplit]; exact abs_add _ _
    have ha := h a
    push_cast
    calc |(f a + (t.map f).sum) - (a + t.sum)|
        ≤ |f a - a| + |(t.map f).sum - t.sum| := habs
      _ ≤ c + (t.length : ℚ) * c := by
          exact add_le_add ha ih
      _ = ((t.length : ℚ) + 1) * c := by ring

theorem sum_map_roundTo_int (n : ℕ) (l : List ℚ) :
    ∃ K : ℤ, (l.map (roundTo n)).sum = (K : ℚ) / 10 ^ n := by
  induction l with
  | nil => exact ⟨0, by simp⟩
  | cons a t ih =>
    obtain ⟨K, hK⟩ := ih
    refine ⟨roundHalfEven (a * 10 ^ n) + K, ?_⟩
    simp only [List.map_cons, List.sum_cons, hK]
    unfold roundTo
    push_cast
    ring

theorem abs_sum_roundTo6_sub_one {l : List ℚ} (h1 : l.sum = 1) (h3 : l.length ≤ 3) :
    |(l.map (roundTo 6)).sum - 1| ≤ 1 / 1000000 := by
  obtain ⟨K, hK⟩ := sum_map_roundTo_int 6 l
  have hb : |(l.map (roundTo 6)).sum - 1| ≤ 3 / 2000000 := by
    have hmain := abs_sum_map_sub_le l (roundTo 6) (1/2000000)
      (fun x => by
        have := abs_roundTo_sub 6 x
        norm_num at this ⊢
        exact this)
    rw [h1] at hmain
    have hl : (l.length : ℚ) ≤ 3 := by exact_mod_cast h3
    calc |(l.map (roundTo 6)).sum - 1|
        ≤ (l.length : ℚ) * (1/2000000) := hmain
      _ ≤ 3 * (1/2000000) := by
          exact mul_le_mul_of_nonneg_right hl (by norm_num)
      _ = 3 / 2000000 := by norm_num
  set M : ℤ := K - 10 ^ 6 with hM
  have hS : (l.map (roundTo 6)).sum - 1 = (M : ℚ) / 10 ^ 6 := by
    rw [hK, hM]; push_cast; ring
  have hpos6 : (0 : ℚ) < 10 ^ 6 := by norm_num
  have habs : |(M : ℚ)| ≤ 3 / 2 := by
    have h1 : |(M : ℚ) / 10 ^ 6| ≤ 3 / 2000000 := by rw [← hS]; exact hb
    rw [abs_div, abs_of_pos hpos6] at h1
    have h2 := (div_le_iff₀ hpos6).mp h1
    have h3 : (3 : ℚ) / 2000000 * 10 ^ 6 = 3 / 2 := by norm_num
    linarith
  have hint : |M| ≤ 1 := by
    by_contra hc
    push_neg at hc
    have h2 : (2 : ℤ) ≤ |M| := hc
    have h2' : (2 : ℚ) ≤ |(M : ℚ)| := by
      rw [← Int.cast_abs]
      exact_mod_cast h2
    linarith
  have hfin : |(M : ℚ)| ≤ 1 := by
    rw [← Int.cast_abs]
    exact_mod_cast hint
  rw [hS, abs_div, abs_of_pos hpos6,
    div_le_div_iff₀ hpos6 (by norm_num : (0:ℚ) < 1000000)]
  nlinarith [hfin]

/-! ## C1: the end-to-end example -/

set_option maxRecDepth 100000 in
set_option maxHeartbeats 4000000 in
/-- C1: on the two-expiry example — Expiry A (call_vol=600, put_vol=900,
call_oi=2000, put_oi=1000) and Expiry B (call_vol=0, put_vol=50,
call_oi=500, put_oi=2000) — the pipeline yields for A `Volume_PCR = 1.5`,
`OI_PCR = 0.5`, impulse `3.0`, and for B `Volume_PCR = NaN`, `OI_PCR = 4.0`,
impulse NaN; the table-wide total open interest is `5500`; A's event score
is `round((3000/5500)*0.5, 8) = 0.27272727` and B's is
`round((2500/5500)*4.0, 8) = 1.81818182`. -/
theorem C1_end_to_end_example :
    enrichExampleRows.map (fun r => (r.Expiry, r.Volume_PCR, r.OI_PCR)) =
      [("A", some (3/2), some (1/2)), ("B", none, some 4)] ∧
    enrichExampleRows.map (fun r => r.Impulse_Vol_over_OI) = [some 3, none] ∧
    (enrichExampleRows.map (fun r => r.Total_OI)).sum = 5500 ∧
    enrichExampleRows.map (fun r => r.EventScore_OIshare_x_OI_PCR) =
      [some (roundTo 8 ((3000/5500) * (1/2))), some (roundTo 8 ((2500/5500) * 4))] ∧
    enrichExampleRows.map (fun r => r.EventScore_OIshare_x_OI_PCR) =
      [some (27272727/100000000), some (181818182/100000000)] := by
  refine ⟨?_, ?_, ?_, ?_, ?_⟩
  · norm_num +decide [enrichExampleRows, enrichExample, enrich_per_expiry, per_expiry_totals,
      truncExpiries, fetchEx, chainA, chainB, mkExpiryRow, colSum, fillna0, sortByExpiry,
      List.insertionSort, List.orderedInsert, strLe, strLe.go, add_dte, add_flow_vs_positioning,
      add_quality_flags, add_event_score, eventDenom, parseDate, roundTo, roundHalfEven,
      MIN_CALL_OI, MIN_CALL_VOL, MIN_TOTAL_OI, Except.map]
  · norm_num +decide [enrichExampleRows, enrichExample, enrich_per_expiry, per_expiry_totals,
      truncExpiries, fetchEx, chainA, chainB, mkExpiryRow, colSum, fillna0, sortByExpiry,
      List.insertionSort, List.orderedInsert, strLe, strLe.go, add_dte, add_flow_vs_positioning,
      add_quality_flags, add_event_score, eventDenom, parseDate, roundTo, roundHalfEven,
      MIN_CALL_OI, MIN_CALL_VOL, MIN_TOTAL_OI, Except.map]
  · norm_num +decide [enrichExampleRows, enrichExample, enrich_per_expiry, per_expiry_totals,
      truncExpiries, fetchEx, chainA, chainB, mkExpiryRow, colSum, fillna0, sortByExpiry,
      List.insertionSort, List.orderedInsert, strLe, strLe.go, add_dte, add_flow_vs_positioning,
      add_quality_flags, add_event_score, eventDenom, parseDate, roundTo, roundHalfEven,
      MIN_CALL_OI, MIN_CALL_VOL, MIN_TOTAL_OI, Except.map]
  · norm_num +decide [enrichExampleRows, enrichExample, enrich_per_expiry, per_expiry_totals,
      truncExpiries, fetchEx, chainA, chainB, mkExpiryRow, colSum, fillna0, sortByExpiry,
      List.insertionSort, List.orderedInsert, strLe, strLe.go, add_dte, add_flow_vs_positioning,
      add_quality_flags, add_event_score, eventDenom, parseDate, roundTo, roundHalfEven,
      MIN_CALL_OI, MIN_CALL_VOL, MIN_TOTAL_OI, Except.map]
    norm_num [Int.fract]
  · norm_num +decide [enrichExampleRows, enrichExample, enrich_per_expiry, per_expiry_totals,
      truncExpiries, fetchEx, chainA, chainB, mkExpiryRow, colSum, fillna0, sortByExpiry,
      List.insertionSort, List.orderedInsert, strLe, strLe.go, add_dte, add_flow_vs_positioning,
      add_quality_flags, add_event_score, eventDenom, parseDate, roundTo, roundHalfEven,
      MIN_CALL_OI, MIN_CALL_VOL, MIN_TOTAL_OI, Except.map]
    norm_num [Int.fract]

/-! ## C4: impulse definedness and the impulse-times-OI-PCR identity -/

/-- C4: for every row produced by `add_flow_vs_positioning`, the impulse is
NaN whenever `OI_PCR` is NaN, zero or negative; and whenever `OI_PCR` is a
positive value `q` and `Volume_PCR` a (non-NaN) value `v`, the impulse is a
value `i` with `|i * q - v| ≤ q / 2000000` — the 6-decimal rounding
tolerance applied to the impulse, carried through the multiplication. -/
theorem C4_impulse (df : List EnrichedRow) (r : EnrichedRow)
    (hr : r ∈ add_flow_vs_positioning df) :
    (r.OI_PCR = none → r.Impulse_Vol_over_OI = none) ∧
    (∀ q : ℚ, r.OI_PCR = some q → q ≤ 0 → r.Impulse_Vol_over_OI = none) ∧
    (∀ q v : ℚ, r.OI_PCR = some q → 0 < q → r.Volume_PCR = some v →
      ∃ i : ℚ, r.Impulse_Vol_over_OI = some i ∧ |i * q - v| ≤ q * (1 / 2000000)) := by
  rw [add_flow_vs_positioning, List.mem_map] at hr
  obtain ⟨r0, hr0, rfl⟩ := hr
  rcases hv : r0.Volume_PCR with _ | v <;> rcases ho : r0.OI_PCR with _ | q
  · simp [hv, ho]
  · simp [hv, ho]
  · simp [hv, ho]
  · refine ⟨?_, ?_, ?_⟩
    · intro hnone
      simp [ho] at hnone
    · intro q' hq' hle
      simp [ho] at hq'
      subst hq'
      simp [hv, ho, not_lt.mpr hle]
    · intro q' v' hq' hpos hv'
      simp [ho] at hq'
      simp [hv] at hv'
      subst hq'
      subst hv'
      refine ⟨roundTo 6 (v / q), by simp [hv, ho, hpos], ?_⟩
      have hb := abs_roundTo_sub 6 (v / q)
      have hq0 : q ≠ 0 := ne_of_gt hpos
      have hrw : roundTo 6 (v / q) * q - v = (roundTo 6 (v / q) - v / q) * q := by
        field_simp
      rw [hrw, abs_mul, abs_of_pos hpos]
      have h10 : (1 : ℚ) / (2 * 10 ^ 6) = 1 / 2000000 := by norm_num
      rw [h10] at hb
      calc |roundTo 6 (v / q) - v / q| * q ≤ (1 / 2000000) * q :=
        mul_le_mul_of_nonneg_right hb (le_of_lt hpos)
        _ = q * (1 / 2000000) := by ring

/-- Witness for C4 at `flowRow`: `OI_PCR = 0.5 > 0`, `Volume_PCR = 1.5`,
and the impulse `3` satisfies `|3 × 0.5 − 1.5| = 0 ≤ 0.5 / 2000000`. -/
theorem C4_impulse_witness :
    ∃ i : ℚ, flowOut.Impulse_Vol_over_OI = some i ∧
      |i * (1/2) - 3/2| ≤ (1/2) * (1 / 2000000) := by
  have e1 : roundTo 6 (1 : ℚ) = 1 := by
    have h : (1 : ℚ) = ((1 : ℤ) : ℚ) := by norm_num
    rw [h, roundTo_intCast]
  have e2 : roundTo 6 (3 : ℚ) = 3 := by
    have h : (3 : ℚ) = ((3 : ℤ) : ℚ) := by norm_num
    rw [h, roundTo_intCast]
  have key : add_flow_vs_positioning [flowRow] = [flowOut] := by
    simp only [add_flow_vs_positioning, List.map_cons, List.map_nil, flowRow, flowOut]
    norm_num [e1, e2]
  have hmem : flowOut ∈ add_flow_vs_positioning [flowRow] := by
    rw [key]; exact List.mem_singleton.mpr rfl
  have h := C4_impulse [flowRow] flowOut hmem
  exact h.2.2 (1/2) (3/2) (by norm_num [flowOut, flowRow]) (by norm_num)
    (by norm_num [flowOut, flowRow])

/-! ## C5: the Total_OI invariant -/

theorem colSum_int (col : ContractRow → Option ℚ) (rows : List ContractRow)
    (h : ∀ c ∈ rows, ∃ n : ℤ, fillna0 (col c) = (n : ℚ)) :
    ∃ N : ℤ, colSum col rows = (N : ℚ) := by
  induction rows with
  | nil => exact ⟨0, by simp [colSum]⟩
  | cons a t ih =>
    obtain ⟨n, hn⟩ := h a (List.mem_cons_self a t)
    obtain ⟨N, hN⟩ := ih (fun c hc => h c (List.mem_cons_of_mem a hc))
    refine ⟨n + N, ?_⟩
    simp only [colSum, List.map_cons, List.sum_cons] at hN ⊢
    rw [hn, hN]
    push_cast
    ring

/-- C5 (amended): whenever every per-contract `openInterest` is an integer
or null — as is the case for real open-interest counts — the stored
`Total_OI` equals `Put_OI + Call_OI` exactly.  The claim's unrestricted
quantification over arbitrary non-negative inputs fails
(`C5_counterexample`) because the three sums are rounded independently. -/
theorem C5_total_oi_amended (symbol exp : String) (ch : Chain)
    (hc : ∀ c ∈ ch.calls, ∃ n : ℤ, fillna0 c.openInterest = (n : ℚ))
    (hp : ∀ c ∈ ch.puts, ∃ n : ℤ, fillna0 c.openInterest = (n : ℚ)) :
    (mkExpiryRow symbol exp ch).Total_OI =
      (mkExpiryRow symbol exp ch).Put_OI + (mkExpiryRow symbol exp ch).Call_OI := by
  obtain ⟨C, hC⟩ := colSum_int (fun c => c.openInterest) ch.calls hc
  obtain ⟨P, hP⟩ := colSum_int (fun c => c.openInterest) ch.puts hp
  show roundHalfEven (colSum (fun c => c.openInterest) ch.puts
      + colSum (fun c => c.openInterest) ch.calls)
    = roundHalfEven (colSum (fun c => c.openInterest) ch.puts)
      + roundHalfEven (colSum (fun c => c.openInterest) ch.calls)
  rw [hP, hC, ← Int.cast_add, roundHalfEven_intCast, roundHalfEven_intCast,
    roundHalfEven_intCast]

/-- Counterexample to C5 as stated: with the non-negative fractional
open-interest inputs of `fracChain` (0.6 per side), `Put_OI` and `Call_OI`
each round to 1 while `Total_OI` rounds 1.2 to 1, so the invariant fails. -/
theorem C5_counterexample :
    (mkExpiryRow "SPY" "X" fracChain).Put_OI = 1 ∧
    (mkExpiryRow "SPY" "X" fracChain).Call_OI = 1 ∧
    (mkExpiryRow "SPY" "X" fracChain).Total_OI = 1 ∧
    ¬ ((mkExpiryRow "SPY" "X" fracChain).Total_OI =
        (mkExpiryRow "SPY" "X" fracChain).Put_OI +
          (mkExpiryRow "SPY" "X" fracChain).Call_OI) := by
  refine ⟨?_, ?_, ?_, ?_⟩ <;>
    norm_num [mkExpiryRow, colSum, fillna0, fracChain, roundHalfEven, Int.fract]

/-- Witness for the amended C5 at `chainA`, whose open-interest entries are
the integers 2000 and 1000. -/
theorem C5_total_oi_amended_witness :
    (mkExpiryRow "SPY" "A" chainA).Total_OI =
      (mkExpiryRow "SPY" "A" chainA).Put_OI + (mkExpiryRow "SPY" "A" chainA).Call_OI := by
  refine C5_total_oi_amended "SPY" "A" chainA ?_ ?_
  · intro c hc
    simp only [chainA, List.mem_singleton] at hc
    subst hc
    exact ⟨2000, by norm_num [fillna0]⟩
  · intro c hc
    simp only [chainA, List.mem_singleton] at hc
    subst hc
    exact ⟨1000, by norm_num [fillna0]⟩

/-! ## C8: the DTE pass -/

/-- C8: for every row, `add_dte` keeps the expiry label and sets `DTE` to
the signed day count from the as-of date to the expiry date when the label
parses as a calendar date (negative for past expiries), and to NaN when it
does not parse. -/
theorem C8_dte (df : List EnrichedRow) (asof : Date) (i : ℕ) (r : EnrichedRow)
    (h : df.get? i = some r) :
    ∃ r', (add_dte df asof).get? i = some r' ∧ r'.Expiry = r.Expiry ∧
      ((parseDate r.Expiry = none ∧ r'.DTE = none) ∨
        (∃ d, parseDate r.Expiry = some d ∧
          r'.DTE = some (d.toDays - asof.toDays))) := by
  refine ⟨{ r with DTE := (parseDate r.Expiry).map (fun e => e.toDays - asof.toDays) },
    ?_, rfl, ?_⟩
  · rw [add_dte, List.get?_map, h]
    rfl
  · rcases hp : parseDate r.Expiry with _ | d
    · exact Or.inl ⟨rfl, by simp [hp]⟩
    · exact Or.inr ⟨d, rfl, by simp [hp]⟩

set_option maxRecDepth 100000 in
/-- Witness for C8 on `dteDF`: the parseable expiry "2025-01-10" five days
before the as-of date 2025-01-15 gets `DTE = -5`, the unparseable label
gets NaN. -/
theorem C8_dte_witness :
    (add_dte dteDF asofEx).map (fun r => r.DTE) = [some (-5), none] ∧
    (∃ r', (add_dte dteDF asofEx).get? 0 = some r' ∧
      r'.Expiry = (mkRow "2025-01-10" none none 0 0 0 false).Expiry ∧
      ((parseDate (mkRow "2025-01-10" none none 0 0 0 false).Expiry = none ∧
          r'.DTE = none) ∨
        (∃ d, parseDate (mkRow "2025-01-10" none none 0 0 0 false).Expiry = some d ∧
          r'.DTE = some (d.toDays - asofEx.toDays)))) :=
  ⟨by with_unfolding_all decide, C8_dte dteDF asofEx 0 _ (by rfl)⟩

/-! ## C6: failure policy of the raw aggregation -/

theorem length_filterMap_fetch (symbol : String) (options : List String)
    (fetch : String → Option Chain) :
    (options.filterMap (fun e => (fetch e).map (fun ch => mkExpiryRow symbol e ch))).length
      = (options.filter (fun e => (fetch e).isSome)).length := by
  induction options with
  | nil => simp
  | cons a t ih =>
    cases h : fetch a <;> simp [List.filterMap_cons, List.filter_cons, h, ih]

theorem filter_length_mono {α : Type} (l : List α) (p q : α → Bool)
    (h : ∀ a, p a = true → q a = true) :
    (l.filter p).length ≤ (l.filter q).length := by
  induction l with
  | nil => simp
  | cons a t ih =>
    by_cases hp : p a = true
    · simp only [List.filter_cons, hp, h a hp, if_pos, List.length_cons]
      exact Nat.succ_le_succ ih
    · cases hq : q a
      · simp only [List.filter_cons, hq]
        simp only [Bool.not_eq_true] at hp
        simp [hp, ih]
      · simp only [List.filter_cons, hq]
        simp only [Bool.not_eq_true] at hp
        simp only [hp]
        simp only [Bool.false_eq_true, if_false, List.length_cons]
        exact le_trans ih (Nat.le_succ _)

/-- Inversion of a successful `per_expiry_totals` run: the metadata counts
are the truncated request count and the per-expiry success count, and the
table has one row per success. -/
theorem per_expiry_totals_ok (symbol : String) (options : List String)
    (fetch : String → Option Chain) (max_expiries : Option ℕ) (agg : AggResult)
    (h : per_expiry_totals symbol options fetch max_expiries = .ok agg) :
    agg.expiries_requested = (truncExpiries options max_expiries).length ∧
    agg.expiries_used = ((truncExpiries options max_expiries).filter
      (fun e => (fetch e).isSome)).length ∧
    agg.rows.length = agg.expiries_used := by
  simp only [per_expiry_totals] at h
  split at h
  · exact Except.noConfusion h
  · split at h
    · exact Except.noConfusion h
    · injection h with h
      subst h
      refine ⟨rfl, length_filterMap_fetch symbol _ fetch, ?_⟩
      show (sortByExpiry _).length = _
      rw [sortByExpiry, (List.perm_insertionSort _ _).length_eq]

/-- C6: a retrieval failure skips only that expiry: as long as one expiry
succeeds the run returns a table whose `Expiries_Used` counts the
successes while `Expiries_Requested` counts all requested expiries;
degrading the fetch oracle (more failures) leaves `Expiries_Requested`
unchanged and can only lower `Expiries_Used`; and when every expiry fails
the run raises the no-data error instead of returning an empty table. -/
theorem C6_failure_policy (symbol : String) (options : List String)
    (fetch : String → Option Chain) (max_expiries : Option ℕ) :
    ((options ≠ []) →
      (∃ e ∈ truncExpiries options max_expiries, (fetch e).isSome) →
      ∃ agg, per_expiry_totals symbol options fetch max_expiries = .ok agg ∧
        agg.expiries_requested = (truncExpiries options max_expiries).length ∧
        agg.expiries_used = ((truncExpiries options max_expiries).filter
          (fun e => (fetch e).isSome)).length ∧
        agg.rows.length = agg.expiries_used) ∧
    ((options ≠ []) →
      (∀ e ∈ truncExpiries options max_expiries, fetch e = none) →
      per_expiry_totals symbol options fetch max_expiries =
        .error ("No chain data aggregated for " ++ symbol)) ∧
    (∀ (fetch' : String → Option Chain) (agg agg' : AggResult),
      (∀ e, fetch' e = none ∨ fetch' e = fetch e) →
      per_expiry_totals symbol options fetch max_expiries = .ok agg →
      per_expiry_totals symbol options fetch' max_expiries = .ok agg' →
      agg'.expiries_requested = agg.expiries_requested ∧
        agg'.expiries_used ≤ agg.expiries_used) := by
  refine ⟨?_, ?_, ?_⟩
  · intro hne hsucc
    have hne' : options.isEmpty = false := by
      cases options
      · exact absurd rfl hne
      · rfl
    have hrne : ((truncExpiries options max_expiries).filterMap
        (fun e => (fetch e).map (fun ch => mkExpiryRow symbol e ch))).isEmpty = false := by
      obtain ⟨e, he, hsome⟩ := hsucc
      rw [List.isEmpty_eq_false_iff_exists_mem]
      rcases hch : fetch e with _ | ch
      · rw [hch] at hsome; exact absurd hsome (by simp)
      · exact ⟨mkExpiryRow symbol e ch,
          List.mem_filterMap.mpr ⟨e, he, by rw [hch]; rfl⟩⟩
    have hok : per_expiry_totals symbol options fetch max_expiries =
        .ok ⟨sortByExpiry ((truncExpiries options max_expiries).filterMap
              (fun e => (fetch e).map (fun ch => mkExpiryRow symbol e ch))),
            ((truncExpiries options max_expiries).filterMap
              (fun e => (fetch e).map (fun ch => mkExpiryRow symbol e ch))).length,
            (truncExpiries options max_expiries).length⟩ := by
      simp only [per_expiry_totals, hne', hrne, Bool.false_eq_true, if_false]
    refine ⟨_, hok, per_expiry_totals_ok symbol options fetch max_expiries _ hok⟩
  · intro hne hall
    have hne' : options.isEmpty = false := by
      cases options
      · exact absurd rfl hne
      · rfl
    have hnil : (truncExpiries options max_expiries).filterMap
        (fun e => (fetch e).map (fun ch => mkExpiryRow symbol e ch)) = [] := by
      rw [List.filterMap_eq_nil_iff]
      intro e he
      rw [hall e he]
      rfl
    have hnil' : ((truncExpiries options max_expiries).filterMap
        (fun e => (fetch e).map (fun ch => mkExpiryRow symbol e ch))).isEmpty = true := by
      rw [hnil]
      rfl
    simp only [per_expiry_totals, hne', hnil', Bool.false_eq_true, if_false, if_true]
  · intro fetch' agg agg' hsub hok hok'
    obtain ⟨hreq, hused, _⟩ := per_expiry_totals_ok symbol options fetch max_expiries agg hok
    obtain ⟨hreq', hused', _⟩ := per_expiry_totals_ok symbol options fetch' max_expiries agg' hok'
    constructor
    · rw [hreq, hreq']
    · rw [hused, hused']
      refine filter_length_mono _ _ _ ?_
      intro e he
      rcases hsub e with hnone | heq
      · rw [hnone] at he
        exact absurd he (by simp)
      · rw [← heq]
        exact he

set_option maxRecDepth 100000 in
/-- Witness for C6: requesting expiries A, B, C against an oracle knowing
only A and B yields a table with `Expiries_Requested = 3`,
`Expiries_Used = 2`, and two rows; degrading the oracle to knowing only A
keeps `Expiries_Requested = 3` and lowers `Expiries_Used` to 1; an oracle
that always fails raises the no-data error. -/
theorem C6_failure_policy_witness :
    (∃ agg, per_expiry_totals "SPY" ["A", "B", "C"] fetchEx none = .ok agg ∧
      agg.expiries_requested = 3 ∧ agg.expiries_used = 2 ∧ agg.rows.length = 2) ∧
    (∃ agg', per_expiry_totals "SPY" ["A", "B", "C"]
        (fun e => if e = "A" then fetchEx e else none) none = .ok agg' ∧
      agg'.expiries_requested = 3 ∧ agg'.expiries_used = 1) ∧
    per_expiry_totals "SPY" ["A", "B", "C"] (fun _ => none) none =
      .error ("No chain data aggregated for SPY") := by
  have h1 := (C6_failure_policy "SPY" ["A", "B", "C"] fetchEx none).1
    (by simp) ⟨"A", by simp [truncExpiries], by with_unfolding_all decide⟩
  have h2 := (C6_failure_policy "SPY" ["A", "B", "C"]
    (fun e => if e = "A" then fetchEx e else none) none).1
    (by simp) ⟨"A", by simp [truncExpiries], by with_unfolding_all decide⟩
  have h3 := (C6_failure_policy "SPY" ["A", "B", "C"] (fun _ => none) none).2.1
    (by simp) (fun e he => rfl)
  refine ⟨?_, ?_, ?_⟩
  · obtain ⟨agg, hok, hreq, hused, hrows⟩ := h1
    refine ⟨agg, hok, ?_, ?_, ?_⟩
    · rw [hreq]; rfl
    · rw [hused]; with_unfolding_all decide
    · rw [hrows, hused]; with_unfolding_all decide
  · obtain ⟨agg', hok, hreq, hused, _⟩ := h2
    refine ⟨agg', hok, ?_, ?_⟩
    · rw [hreq]; rfl
    · rw [hused]; with_unfolding_all decide
  · rw [h3]
    rfl

/-! ## C7: the two share denominators -/

theorem intSum_cast (w : List EnrichedRow) (f : EnrichedRow → ℤ) :
    (w.map (fun r => (f r : ℚ))).sum = (((w.map f).sum : ℤ) : ℚ) := by
  induction w with
  | nil => simp
  | cons a t ih =>
    simp only [List.map_cons, List.sum_cons, ih]
    push_cast
    ring

/-- C7: every bucket's `Bucket_TotalOI_Share` divides by the single
`bucketDenom` computed over the quality-filtered table before banding;
appending a quality-passing row — even one outside every band — grows that
denominator by its `Total_OI`, while appending a quality-failing row leaves
it unchanged; the event-score denominator, by contrast, grows with every
appended row, quality-passing or not, and an out-of-band row joins no
band's member set. -/
theorem C7_denominators :
    (∀ (df : List EnrichedRow) (req : Bool), ∀ b ∈ bucket_term_structure df req,
      b.Bucket_TotalOI_Share =
        if 0 < bucketDenom df req
        then some (roundTo 6 ((b.Bucket_TotalOI : ℚ) / bucketDenom df req))
        else none) ∧
    (∀ (df : List EnrichedRow) (r : EnrichedRow), r.Quality_OK = true →
      bucketDenom (df ++ [r]) true = bucketDenom df true + (r.Total_OI : ℚ)) ∧
    (∀ (df : List EnrichedRow) (r : EnrichedRow), r.Quality_OK = false →
      bucketDenom (df ++ [r]) true = bucketDenom df true) ∧
    (∀ (df : List EnrichedRow) (r : EnrichedRow),
      eventDenom (df ++ [r]) = eventDenom df + (r.Total_OI : ℚ)) ∧
    (∀ (df : List EnrichedRow) (r : EnrichedRow) (lo hi : ℤ),
      inBand lo hi r = false →
      (qualityFilter (df ++ [r]) true).filter (inBand lo hi) =
        (qualityFilter df true).filter (inBand lo hi)) := by
  refine ⟨?_, ?_, ?_, ?_, ?_⟩
  · intro df req b hb
    simp only [bucket_term_structure] at hb
    rw [List.mem_map] at hb
    obtain ⟨b0, hb0, rfl⟩ := hb
    rw [bucketBaseRows, List.mem_map] at hb0
    obtain ⟨band, hband, rfl⟩ := hb0
    rcases band with ⟨name, lo, hi⟩
    show (mkBucketRow (qualityFilter df req) (bucketDenom df req)
      (name, lo, hi)).Bucket_TotalOI_Share = _
    simp only [mkBucketRow]
    rw [intSum_cast _ (fun r => r.Total_OI), roundHalfEven_intCast]
    split
    · rfl
    · rfl
  · intro df r hq
    simp [bucketDenom, qualityFilter, List.filter_append, hq]
  · intro df r hq
    simp [bucketDenom, qualityFilter, List.filter_append, hq]
  · intro df r
    simp [eventDenom]
  · intro df r lo hi hband
    cases hq : r.Quality_OK <;>
      simp [qualityFilter, List.filter_append, hq, hband]

/-- Witness for C7: appending the out-of-band quality row `farRow` (DTE
500, Total_OI 20) to the one-row table grows the bucket-share denominator
by 20 while joining no band; appending the quality-failing `lowQRow`
leaves the bucket-share denominator unchanged but still grows the
event-score denominator by 20. -/
theorem C7_denominators_witness :
    bucketDenom (oneShortDF ++ [farRow]) true = bucketDenom oneShortDF true + 20 ∧
    ((qualityFilter (oneShortDF ++ [farRow]) true).filter (inBand 61 120) =
      (qualityFilter oneShortDF true).filter (inBand 61 120)) ∧
    bucketDenom (oneShortDF ++ [lowQRow]) true = bucketDenom oneShortDF true ∧
    eventDenom (oneShortDF ++ [lowQRow]) = eventDenom oneShortDF + 20 := by
  obtain ⟨h1, h2, h3, h4, h5⟩ := C7_denominators
  refine ⟨?_, ?_, ?_, ?_⟩
  · rw [h2 oneShortDF farRow (by rfl)]
    norm_num [farRow, mkRow]
  · exact h5 oneShortDF farRow 61 120 (by decide)
  · exact h3 oneShortDF lowQRow (by rfl)
  · rw [h4 oneShortDF lowQRow]
    norm_num [lowQRow, mkRow]

/-! ## C10: empty buckets -/

/-- `bucket_term_structure` unfolded: the concentration-scoring pass over
the base bucket rows, with its normalization denominator. -/
theorem bucket_term_structure_eq (df : List EnrichedRow) (req : Bool) :
    bucket_term_structure df req = (bucketBaseRows df req).map (fun b =>
      { b with
          Bucket_Concentration_Score := (scoreOf b).map (roundTo 8)
          Bucket_Concentration_Share :=
            (if 0 < concDenom (bucketBaseRows df req)
              then (scoreOf b).map (fun s => s / concDenom (bucketBaseRows df req))
              else none).map (roundTo 6) }) := rfl

/-- C10: when the quality-filtered table has positive total open interest
and a band has no member rows, that band is still emitted: all-zero sums,
`Bucket_TotalOI_Share = 0` (not NaN), NaN put/call ratios, NaN
concentration score and share; and the normalization denominator of the
concentration shares equals the one computed from the other buckets alone,
so the empty band contributes nothing to it. -/
theorem C10_empty_bucket (df : List EnrichedRow) (name : String) (lo hi : ℤ)
    (hmem : (name, lo, hi) ∈ bucketBands)
    (hpos : 0 < bucketDenom df true)
    (hempty : (qualityFilter df true).filter (inBand lo hi) = []) :
    ∃ b ∈ bucket_term_structure df true,
      b.Bucket = name ∧ b.Sum_Put_OI = 0 ∧ b.Sum_Call_OI = 0 ∧
      b.Sum_Put_Volume = 0 ∧ b.Sum_Call_Volume = 0 ∧ b.Bucket_TotalOI = 0 ∧
      b.Bucket_TotalOI_Share = some 0 ∧ b.Bucket_OI_PCR = none ∧
      b.Bucket_Volume_PCR = none ∧ b.Bucket_Concentration_Score = none ∧
      b.Bucket_Concentration_Share = none ∧
      concDenom (bucketBaseRows df true) =
        nanSum (((bucketBaseRows df true).filter
          (fun x => x.Bucket != name)).map scoreOf) := by
  have hb0 : mkBucketRow (qualityFilter df true) (bucketDenom df true) (name, lo, hi) =
      { Bucket := name, DTE_Min := lo, DTE_Max := hi, Sum_Put_OI := 0, Sum_Call_OI := 0,
        Bucket_OI_PCR := none, Sum_Put_Volume := 0, Sum_Call_Volume := 0,
        Bucket_Volume_PCR := none, Bucket_TotalOI := 0,
        Bucket_TotalOI_Share := some 0 } := by
    simp only [mkBucketRow, hempty, List.map_nil, List.sum_nil, roundHalfEven_zero]
    rw [if_pos hpos]
    simp [roundTo_zero]
  have hb0mem : mkBucketRow (qualityFilter df true) (bucketDenom df true) (name, lo, hi)
      ∈ bucketBaseRows df true := by
    show _ ∈ bucketBands.map (mkBucketRow (qualityFilter df true) (bucketDenom df true))
    exact List.mem_map_of_mem _ hmem
  have hscore : scoreOf (mkBucketRow (qualityFilter df true) (bucketDenom df true)
      (name, lo, hi)) = none := by
    rw [hb0]
    rfl
  rw [bucket_term_structure_eq]
  refine ⟨_, List.mem_map_of_mem _ hb0mem, ?_, ?_, ?_, ?_, ?_, ?_, ?_, ?_, ?_, ?_, ?_, ?_⟩
  · show (mkBucketRow (qualityFilter df true) (bucketDenom df true) (name, lo, hi)).Bucket = name
    rw [hb0]
  · show (mkBucketRow (qualityFilter df true) (bucketDenom df true) (name, lo, hi)).Sum_Put_OI = 0
    rw [hb0]
  · show (mkBucketRow (qualityFilter df true) (bucketDenom df true) (name, lo, hi)).Sum_Call_OI = 0
    rw [hb0]
  · show (mkBucketRow (qualityFilter df true) (bucketDenom df true) (name, lo, hi)).Sum_Put_Volume = 0
    rw [hb0]
  · show (mkBucketRow (qualityFilter df true) (bucketDenom df true) (name, lo, hi)).Sum_Call_Volume = 0
    rw [hb0]
  · show (mkBucketRow (qualityFilter df true) (bucketDenom df true) (name, lo, hi)).Bucket_TotalOI = 0
    rw [hb0]
  · show (mkBucketRow (qualityFilter df true) (bucketDenom df true) (name, lo, hi)).Bucket_TotalOI_Share = some 0
    rw [hb0]
  · show (mkBucketRow (qualityFilter df true) (bucketDenom df true) (name, lo, hi)).Bucket_OI_PCR = none
    rw [hb0]
  · show (mkBucketRow (qualityFilter df true) (bucketDenom df true) (name, lo, hi)).Bucket_Volume_PCR = none
    rw [hb0]
  · show (scoreOf _).map (roundTo 8) = none
    rw [hscore]
    rfl
  · show ((if 0 < concDenom (bucketBaseRows df true) then _ else none).map (roundTo 6)) = none
    rw [hscore]
    split <;> rfl
  · have hnm : ∀ band : String × ℤ × ℤ,
        (mkBucketRow (qualityFilter df true) (bucketDenom df true) band).Bucket = band.1 := by
      intro band
      rcases band with ⟨n, lo', hi'⟩
      rfl
    simp only [bucketBands, List.mem_cons, List.mem_singleton,
      List.not_mem_nil, or_false] at hmem
    rcases hmem with h | h | h <;>
      simp only [Prod.mk.injEq] at h <;>
      obtain ⟨rfl, rfl, rfl⟩ := h <;>
      simp only [bucketBaseRows, bucketBands, List.map_cons, List.map_nil] <;>
      simp only [concDenom, nanSum, List.map_cons, List.map_nil, List.filter_cons,
        List.filter_nil, hnm, hscore] <;>
      simp [List.filterMap_cons]

/-- Witness for C10: on the one-row short-maturity table, the empty
`Long_61_120` bucket is emitted with zero sums, a zero (not NaN) OI
share, NaN ratios and scores, and the concentration denominator equals
that of the other two buckets alone. -/
theorem C10_empty_bucket_witness :
    ∃ b ∈ bucket_term_structure oneShortDF true,
      b.Bucket = "Long_61_120" ∧ b.Sum_Put_OI = 0 ∧ b.Sum_Call_OI = 0 ∧
      b.Sum_Put_Volume = 0 ∧ b.Sum_Call_Volume = 0 ∧ b.Bucket_TotalOI = 0 ∧
      b.Bucket_TotalOI_Share = some 0 ∧ b.Bucket_OI_PCR = none ∧
      b.Bucket_Volume_PCR = none ∧ b.Bucket_Concentration_Score = none ∧
      b.Bucket_Concentration_Share = none ∧
      concDenom (bucketBaseRows oneShortDF true) =
        nanSum (((bucketBaseRows oneShortDF true).filter
          (fun x => x.Bucket != "Long_61_120")).map scoreOf) :=
  C10_empty_bucket oneShortDF "Long_61_120" 61 120 (by decide)
    (by norm_num [bucketDenom, qualityFilter, oneShortDF, mkRow])
    (by simp [qualityFilter, oneShortDF, mkRow, inBand])

/-! ## C2: bucket concentration shares -/

theorem mem_qualityFilter {r : EnrichedRow} {df : List EnrichedRow} {req : Bool}
    (h : r ∈ qualityFilter df req) : r ∈ df := by
  cases req
  · simpa [qualityFilter] using h
  · simp only [qualityFilter, if_true] at h
    exact List.mem_of_mem_filter h

/-- With non-negative open-interest columns, every defined concentration
score is non-negative. -/
theorem scoreOf_nonneg (df : List EnrichedRow) (req : Bool)
    (hP : ∀ r ∈ df, 0 ≤ r.Put_OI) (hT : ∀ r ∈ df, 0 ≤ r.Total_OI) :
    ∀ b ∈ bucketBaseRows df req, ∀ s, scoreOf b = some s → 0 ≤ s := by
  intro b hb s hs
  have hb' : b ∈ bucketBands.map
      (mkBucketRow (qualityFilter df req) (bucketDenom df req)) := hb
  rw [List.mem_map] at hb'
  obtain ⟨band, hband, rfl⟩ := hb'
  rcases band with ⟨name, lo, hi⟩
  have hTw : (0:ℚ) ≤ (((qualityFilter df req).filter (inBand lo hi)).map
      (fun r => (r.Total_OI : ℚ))).sum := by
    apply List.sum_nonneg
    intro x hx
    rw [List.mem_map] at hx
    obtain ⟨r, hr, rfl⟩ := hx
    have : r ∈ df := mem_qualityFilter (List.mem_of_mem_filter hr)
    exact_mod_cast hT r this
  have hPw : (0:ℚ) ≤ (((qualityFilter df req).filter (inBand lo hi)).map
      (fun r => (r.Put_OI : ℚ))).sum := by
    apply List.sum_nonneg
    intro x hx
    rw [List.mem_map] at hx
    obtain ⟨r, hr, rfl⟩ := hx
    have : r ∈ df := mem_qualityFilter (List.mem_of_mem_filter hr)
    exact_mod_cast hP r this
  by_cases hD : 0 < bucketDenom df req
  · by_cases hc : 0 < (((qualityFilter df req).filter (inBand lo hi)).map
        (fun r => (r.Call_OI : ℚ))).sum
    · simp only [scoreOf, mkBucketRow, hD, hc, if_true, Option.map_some',
        Option.some.injEq] at hs
      subst hs
      exact mul_nonneg (roundTo_nonneg (div_nonneg hTw (le_of_lt hD)))
        (roundTo_nonneg (div_nonneg hPw (le_of_lt hc)))
    · simp [scoreOf, mkBucketRow, hD, hc] at hs
  · simp [scoreOf, mkBucketRow, hD] at hs

theorem nanSum_map_optmap {α : Type} (l : List α) (g : α → Option ℚ) (h : ℚ → ℚ) :
    nanSum (l.map (fun a => (g a).map h)) = ((l.filterMap g).map h).sum := by
  induction l with
  | nil => rfl
  | cons a t ih =>
    simp only [nanSum, List.filterMap_map, Function.id_comp] at ih ⊢
    cases hg : g a <;>
      simp [List.filterMap_cons, hg, ih]

theorem concDenom_eq_sum_filterMap (l : List BucketRow) :
    concDenom l = (l.filterMap scoreOf).sum := by
  rw [concDenom, nanSum, List.filterMap_map]
  rfl

theorem sum_map_div (l : List ℚ) (d : ℚ) : (l.map (fun x => x / d)).sum = l.sum / d := by
  induction l with
  | nil => simp
  | cons a t ih => simp [ih, add_div]

/-- C2: whenever at least one bucket has a positive, finite concentration
score, the non-NaN concentration shares sum to 1 within 1e-6 (the residue
of rounding each share to 6 decimals); and whenever the NaN-skipping sum
of the scores is non-positive — in particular when every score is NaN —
every bucket's concentration share is NaN.  The open-interest columns are
non-negative, per the data model. -/
theorem C2_bucket_share_normalization (df : List EnrichedRow) (req : Bool)
    (hP : ∀ r ∈ df, 0 ≤ r.Put_OI) (hT : ∀ r ∈ df, 0 ≤ r.Total_OI) :
    ((∃ b ∈ bucket_term_structure df req,
        ∃ s, b.Bucket_Concentration_Score = some s ∧ 0 < s) →
      |nanSum ((bucket_term_structure df req).map
          (fun b => b.Bucket_Concentration_Share)) - 1| ≤ 1 / 1000000) ∧
    (concDenom (bucketBaseRows df req) ≤ 0 →
      ∀ b ∈ bucket_term_structure df req, b.Bucket_Concentration_Share = none) := by
  constructor
  · rintro ⟨b, hb, s, hsf, hspos⟩
    rw [bucket_term_structure_eq, List.mem_map] at hb
    obtain ⟨b0, hb0, rfl⟩ := hb
    have hsf' : (scoreOf b0).map (roundTo 8) = some s := hsf
    rcases hg : scoreOf b0 with _ | s0
    · rw [hg] at hsf'
      exact absurd hsf' (by simp)
    rw [hg] at hsf'
    simp only [Option.map_some', Option.some.injEq] at hsf'
    have hs0pos : 0 < s0 := by
      by_contra hle
      push_neg at hle
      have h8 := roundTo_nonpos (n := 8) hle
      rw [hsf'] at h8
      linarith
    have hls : concDenom (bucketBaseRows df req)
        = ((bucketBaseRows df req).filterMap scoreOf).sum :=
      concDenom_eq_sum_filterMap _
    have hnn : ∀ x ∈ (bucketBaseRows df req).filterMap scoreOf, (0:ℚ) ≤ x := by
      intro x hx
      rw [List.mem_filterMap] at hx
      obtain ⟨b', hb', hx'⟩ := hx
      exact scoreOf_nonneg df req hP hT b' hb' x hx'
    have hmem0 : s0 ∈ (bucketBaseRows df req).filterMap scoreOf :=
      List.mem_filterMap.mpr ⟨b0, hb0, hg⟩
    have hDpos : 0 < concDenom (bucketBaseRows df req) := by
      rw [hls]
      calc (0:ℚ) < s0 := hs0pos
        _ ≤ _ := List.single_le_sum hnn s0 hmem0
    have hshares : (bucket_term_structure df req).map (fun b => b.Bucket_Concentration_Share)
        = (bucketBaseRows df req).map (fun b' =>
            (scoreOf b').map (fun x => roundTo 6 (x / concDenom (bucketBaseRows df req)))) := by
      rw [bucket_term_structure_eq, List.map_map]
      apply List.map_congr_left
      intro b' hb'
      show ((if 0 < concDenom (bucketBaseRows df req)
          then (scoreOf b').map (fun x => x / concDenom (bucketBaseRows df req))
          else none)).map (roundTo 6) = _
      rw [if_pos hDpos, Option.map_map]
      rfl
    rw [hshares, nanSum_map_optmap]
    have hmapmap : ((bucketBaseRows df req).filterMap scoreOf).map
          (fun x => roundTo 6 (x / concDenom (bucketBaseRows df req)))
        = (((bucketBaseRows df req).filterMap scoreOf).map
            (fun x => x / concDenom (bucketBaseRows df req))).map (roundTo 6) := by
      rw [List.map_map]
      rfl
    rw [hmapmap]
    apply abs_sum_roundTo6_sub_one
    · rw [sum_map_div, ← hls, div_self (ne_of_gt hDpos)]
    · rw [List.length_map]
      calc ((bucketBaseRows df req).filterMap scoreOf).length
          ≤ (bucketBaseRows df req).length := List.length_filterMap_le _ _
        _ = 3 := by
            show (bucketBands.map _).length = 3
            rw [List.length_map]
            rfl
  · intro hle b hb
    rw [bucket_term_structure_eq, List.mem_map] at hb
    obtain ⟨b0, hb0, rfl⟩ := hb
    show ((if 0 < concDenom (bucketBaseRows df req)
        then (scoreOf b0).map (fun x => x / concDenom (bucketBaseRows df req))
        else none)).map (roundTo 6) = none
    rw [if_neg (not_lt.mpr hle)]
    rfl

set_option maxRecDepth 100000 in
set_option maxHeartbeats 4000000 in
/-- Witness for C2 on the one-row table: the short bucket's concentration
score is 1 (positive and finite), and the non-NaN shares sum to exactly
1. -/
theorem C2_bucket_share_normalization_witness :
    |nanSum ((bucket_term_structure oneShortDF true).map
        (fun b => b.Bucket_Concentration_Share)) - 1| ≤ 1 / 1000000 := by
  have hval : (bucket_term_structure oneShortDF true).map
      (fun b => b.Bucket_Concentration_Score) = [some 1, none, none] := by
    with_unfolding_all decide
  have hex : ∃ b ∈ bucket_term_structure oneShortDF true,
      ∃ s, b.Bucket_Concentration_Score = some s ∧ 0 < s := by
    rcases hl : bucket_term_structure oneShortDF true with _ | ⟨b1, rest⟩
    · rw [hl] at hval
      exact absurd hval (by simp)
    · rw [hl] at hval
      simp only [List.map_cons, List.cons.injEq] at hval
      exact ⟨b1, List.mem_cons_self _ _, 1, hval.1, by norm_num⟩
  exact (C2_bucket_share_normalization oneShortDF true
    (by intro r hr
        simp only [oneShortDF, List.mem_singleton] at hr
        subst hr
        norm_num [mkRow])
    (by intro r hr
        simp only [oneShortDF, List.mem_singleton] at hr
        subst hr
        norm_num [mkRow])).1 hex

/-! ## C3 and C9: the rankers -/

theorem sortRows_perm (d : Bool) (k : EnrichedRow → ℚ) (l : List EnrichedRow) :
    (sortRows d k l).Perm l :=
  List.perm_insertionSort _ _

theorem sortRows_sorted (d : Bool) (k : EnrichedRow → ℚ) (l : List EnrichedRow) :
    List.Pairwise (sortKeyRel d k) (sortRows d k l) := by
  haveI htot : IsTotal EnrichedRow (sortKeyRel d k) := ⟨by
    intro a b
    unfold sortKeyRel
    cases d <;> simp <;> exact le_total _ _⟩
  haveI htrans : IsTrans EnrichedRow (sortKeyRel d k) := ⟨by
    intro a b c hab hbc
    unfold sortKeyRel at hab hbc ⊢
    cases d <;> simp at hab hbc ⊢
    · exact le_trans hab hbc
    · exact le_trans hbc hab⟩
  exact List.sorted_insertionSort _ _

theorem orderedInsert_map {α : Type} (r : α → α → Prop) [DecidableRel r]
    (g : α → α) (hrel : ∀ a b, r (g a) (g b) ↔ r a b) (a : α) (l : List α) :
    List.orderedInsert r (g a) (l.map g) = (List.orderedInsert r a l).map g := by
  induction l with
  | nil => rfl
  | cons b t ih =>
    by_cases h : r a b
    · simp [List.orderedInsert, h, (hrel a b).mpr h]
    · have h' : ¬ r (g a) (g b) := fun hc => h ((hrel a b).mp hc)
      simp [List.orderedInsert, h, h', ih]

theorem insertionSort_map {α : Type} (r : α → α → Prop) [DecidableRel r]
    (g : α → α) (hrel : ∀ a b, r (g a) (g b) ↔ r a b) (l : List α) :
    List.insertionSort r (l.map g) = (List.insertionSort r l).map g := by
  induction l with
  | nil => rfl
  | cons b t ih =>
    simp [List.insertionSort, ih, orderedInsert_map r g hrel]

theorem top_expiries_eq (df : List EnrichedRow) (top_n : ℕ) :
    top_expiries_by_oi_pcr df top_n =
      ((sortRows true (fun r => fillna0 r.OI_PCR)
        (df.filter (fun r => r.OI_PCR.isSome))).take top_n).map projTopOI := rfl

theorem top_by_metric_ok (df : List EnrichedRow) (metric : String) (top_n : ℕ)
    (descending req : Bool) (col : EnrichedRow → Option ℚ) (l : List EnrichedRow)
    (hcol : colAsNum metric = some col)
    (h : top_by_metric df metric top_n descending req = .ok l) :
    l = (sortRows descending (fun r => fillna0 (col r))
        ((qualityFilter df req).filter (fun r => (col r).isSome))).take top_n := by
  simp only [top_by_metric, hcol] at h
  injection h with h
  exact h.symm

/-- C3 (amended): both rankers return at most `top_n` rows, none with NaN
in the ranked metric, ordered by the metric in the requested direction —
non-strictly: rows with equal metric values may both appear
(`C3_strict_order_counterexample`), so the ordering is monotone rather
than strict. -/
theorem C3_ranking_amended (df : List EnrichedRow) (top_n : ℕ) (metric : String)
    (descending require_quality_ok : Bool) :
    ((top_expiries_by_oi_pcr df top_n).length ≤ top_n ∧
      (∀ p ∈ top_expiries_by_oi_pcr df top_n, p.OI_PCR.isSome = true) ∧
      List.Pairwise (fun p q : TopOIRow => fillna0 q.OI_PCR ≤ fillna0 p.OI_PCR)
        (top_expiries_by_oi_pcr df top_n)) ∧
    (∀ (col : EnrichedRow → Option ℚ) (l : List EnrichedRow),
      colAsNum metric = some col →
      top_by_metric df metric top_n descending require_quality_ok = .ok l →
      l.length ≤ top_n ∧ (∀ r ∈ l, (col r).isSome = true) ∧
      List.Pairwise (sortKeyRel descending (fun r => fillna0 (col r))) l) := by
  constructor
  · refine ⟨?_, ?_, ?_⟩
    · rw [top_expiries_eq, List.length_map]
      exact List.length_take_le _ _
    · intro p hp
      rw [top_expiries_eq, List.mem_map] at hp
      obtain ⟨r, hr, rfl⟩ := hp
      have hr' := List.mem_of_mem_take hr
      have hmem := (sortRows_perm _ _ _).mem_iff.mp hr'
      have h2 := List.of_mem_filter hmem
      simpa using h2
    · rw [top_expiries_eq, List.pairwise_map]
      exact List.Pairwise.sublist (List.take_sublist _ _)
        (sortRows_sorted true (fun r => fillna0 r.OI_PCR)
          (df.filter (fun r => r.OI_PCR.isSome)))
  · intro col l hcol hok
    have hl := top_by_metric_ok df metric top_n descending require_quality_ok col l hcol hok
    subst hl
    refine ⟨List.length_take_le _ _, ?_, ?_⟩
    · intro r hr
      have hr' := List.mem_of_mem_take hr
      have hmem := (sortRows_perm _ _ _).mem_iff.mp hr'
      have h2 := List.of_mem_filter hmem
      simpa using h2
    · exact List.Pairwise.sublist (List.take_sublist _ _) (sortRows_sorted _ _ _)

set_option maxRecDepth 100000 in
/-- Counterexample to C3 as stated: on `tieDF`, whose two rows share
`OI_PCR = 1.0`, the fixed-metric ranker returns both rows, so the output
is not strictly ordered by the ranked metric. -/
theorem C3_strict_order_counterexample :
    (top_expiries_by_oi_pcr tieDF 5).map (fun p => p.OI_PCR) = [some 1, some 1] ∧
    ¬ List.Pairwise (fun p q : TopOIRow => fillna0 q.OI_PCR < fillna0 p.OI_PCR)
      (top_expiries_by_oi_pcr tieDF 5) := by
  have hmap : (top_expiries_by_oi_pcr tieDF 5).map (fun p => p.OI_PCR)
      = [some 1, some 1] := by
    with_unfolding_all decide
  refine ⟨hmap, ?_⟩
  intro hp
  rcases hl : top_expiries_by_oi_pcr tieDF 5 with _ | ⟨p1, rest⟩
  · rw [hl] at hmap
    exact absurd hmap (by simp)
  rcases rest with _ | ⟨p2, rest2⟩
  · rw [hl] at hmap
    exact absurd hmap (by simp)
  rw [hl] at hmap hp
  simp only [List.map_cons, List.cons.injEq] at hmap
  obtain ⟨h1, h2, _⟩ := hmap
  rw [List.pairwise_cons] at hp
  have hlt := hp.1 p2 (List.mem_cons_self _ _)
  rw [h1, h2] at hlt
  norm_num [fillna0] at hlt

set_option maxRecDepth 100000 in
/-- Witness for the amended C3 on `tieDF` with metric `OI_PCR`,
descending, quality gate on: at most five rows, no NaN metric, and
non-strictly descending order; the generic ranker returns both tied
rows. -/
theorem C3_ranking_amended_witness :
    ((top_expiries_by_oi_pcr tieDF 5).length ≤ 5 ∧
      (∀ p ∈ top_expiries_by_oi_pcr tieDF 5, p.OI_PCR.isSome = true) ∧
      List.Pairwise (fun p q : TopOIRow => fillna0 q.OI_PCR ≤ fillna0 p.OI_PCR)
        (top_expiries_by_oi_pcr tieDF 5)) ∧
    (tieDF.length ≤ 5 ∧ (∀ r ∈ tieDF, (r.OI_PCR).isSome = true) ∧
      List.Pairwise (sortKeyRel true (fun r => fillna0 r.OI_PCR)) tieDF) := by
  have hok : top_by_metric tieDF "OI_PCR" 5 true true = .ok tieDF := by
    with_unfolding_all rfl
  obtain ⟨h1, h2⟩ := C3_ranking_amended tieDF 5 "OI_PCR" true true
  exact ⟨h1, h2 (fun r => r.OI_PCR) tieDF rfl hok⟩

/-- C9: the fixed-metric ranker `top_expiries_by_oi_pcr` applies no
quality gating — its output is unchanged by arbitrarily rewriting every
row's `Quality_OK` flag, and it keeps `min top_n k` rows where `k` counts
all rows with non-NaN `OI_PCR`; the generic ranker with its (default-on)
quality gate, by contrast, only ever returns quality-passing rows. -/
theorem C9_fixed_ranker_ignores_quality (df : List EnrichedRow)
    (q : EnrichedRow → Bool) (top_n : ℕ) (metric : String) (descending : Bool) :
    top_expiries_by_oi_pcr (setQuality df q) top_n = top_expiries_by_oi_pcr df top_n ∧
    (top_expiries_by_oi_pcr df top_n).length
      = min top_n (df.filter (fun r => r.OI_PCR.isSome)).length ∧
    (∀ (col : EnrichedRow → Option ℚ) (l : List EnrichedRow),
      colAsNum metric = some col →
      top_by_metric df metric top_n descending true = .ok l →
      ∀ r ∈ l, r.Quality_OK = true) := by
  refine ⟨?_, ?_, ?_⟩
  · rw [top_expiries_eq, top_expiries_eq]
    have hfil : (setQuality df q).filter (fun r => r.OI_PCR.isSome)
        = (df.filter (fun r => r.OI_PCR.isSome)).map
            (fun r => { r with Quality_OK := q r }) := by
      rw [setQuality, List.filter_map]
      rfl
    rw [hfil]
    rw [show sortRows true (fun r => fillna0 r.OI_PCR)
          ((df.filter (fun r => r.OI_PCR.isSome)).map
            (fun r => { r with Quality_OK := q r }))
        = (sortRows true (fun r => fillna0 r.OI_PCR)
            (df.filter (fun r => r.OI_PCR.isSome))).map
              (fun r => { r with Quality_OK := q r }) from
      insertionSort_map (sortKeyRel true (fun r => fillna0 r.OI_PCR))
        (fun r => { r with Quality_OK := q r }) (fun a b => Iff.rfl)
        (df.filter (fun r => r.OI_PCR.isSome))]
    simp only [List.map_take, List.map_map]
    rfl
  · rw [top_expiries_eq, List.length_map, List.length_take]
    congr 1
    exact (sortRows_perm _ _ _).length_eq
  · intro col l hcol hok r hr
    have hl := top_by_metric_ok df metric top_n descending true col l hcol hok
    subst hl
    have hr' := List.mem_of_mem_take hr
    have hmem := (sortRows_perm _ _ _).mem_iff.mp hr'
    have hmem2 := List.mem_of_mem_filter hmem
    have hmem3 : r ∈ df.filter (fun r => r.Quality_OK) := by
      simpa [qualityFilter] using hmem2
    have h2 := List.of_mem_filter hmem3
    simpa using h2

set_option maxRecDepth 100000 in
/-- Witness for C9 on `tieDF`: flipping both rows' quality flags to false
leaves the fixed ranker's output unchanged; its length is `min 5 2`; and
the generic ranker's output rows (here both rows of `tieDF`) all pass the
quality gate. -/
theorem C9_fixed_ranker_ignores_quality_witness :
    top_expiries_by_oi_pcr (setQuality tieDF (fun _ => false)) 5
      = top_expiries_by_oi_pcr tieDF 5 ∧
    (top_expiries_by_oi_pcr tieDF 5).length
      = min 5 (tieDF.filter (fun r => r.OI_PCR.isSome)).length ∧
    (∀ r ∈ tieDF, r.Quality_OK = true) := by
  have hok : top_by_metric tieDF "OI_PCR" 5 true true = .ok tieDF := by
    with_unfolding_all rfl
  obtain ⟨h1, h2, h3⟩ :=
    C9_fixed_ranker_ignores_quality tieDF (fun _ => false) 5 "OI_PCR" true
  exact ⟨h1, h2, h3 (fun r => r.OI_PCR) tieDF rfl hok⟩
